import Mathlib

/-
Verification of src/src/portable/teensy_common.cpp (FreeRTOS support shim
for Teensy boards): a shallow embedding of the heap grower (_sbrk_r), the
wall clock (clock::sync_rtc, _gettimeofday), the fault-report formatter
(exc_printf / exc_puint), the unwind frame walker (trace_fcn) and the
scheduler bridge (yield, event_responder_set_pend_sv), together with
theorems settling the spec claims about them.

Machine integers are modelled as Nat / Int with explicit reduction modulo
2 ^ 32 where the 32-bit hardware wraps.  Addresses (of _ebss, _estack, the
heap end, task handles) are plain Nat values.
-/

namespace TeensyPort

/-! ### Diagnostic formatter: exc_puint and exc_printf (lines 65-134) -/

/-- One loop iteration of `exc_puint` (line 65): digits of `num` are written
least-significant first into a 12-byte buffer, from index 10 downward; the
counter argument mirrors the remaining buffer slots (11 slots, enough for any
32-bit value, which has at most 10 decimal digits). -/
def puintAux : Nat → Nat → List Char → List Char
  | 0, _, acc => acc
  | i + 1, num, acc =>
    let c := Char.ofNat (num % 10 + 48)
    if num / 10 = 0 then c :: acc else puintAux i (num / 10) (c :: acc)

/-- `exc_puint` (line 65): unsigned decimal digits of a 32-bit value, produced
by repeated division by 10.  The source hands the digit buffer to `exc_printf`;
decimal digits never contain a percent character, so the formatter emits them
verbatim (lemma `exc_printf_digits` below). -/
def exc_puint (num : Nat) : List Char :=
  puintAux 11 (num % 2 ^ 32) []

/-- One character of the `%x` / `%X` loop (lines 120-124): the top nibble of
`val`, as a decimal digit or an uppercase letter from A. -/
def hexDigitChar (d : Nat) : Char :=
  if d < 10 then Char.ofNat (d + 48) else Char.ofNat (d - 10 + 65)

/-- The 8-iteration loop of the `%x` / `%X` conversion (lines 120-124):
`d = (val >> 28) & 15` is printed and `val <<= 4` wraps at 32 bits. -/
def hexLoop : Nat → Nat → List Char
  | 0, _ => []
  | n + 1, val => hexDigitChar (val / 2 ^ 28 % 16) :: hexLoop n (val * 16 % 2 ^ 32)

/-- A variadic argument of `exc_printf`: either a 32-bit word (consumed by
`%d`, `%u`, `%x`, `%X`, `%c`) or a pointer to a NUL-terminated string
(consumed by `%s`).  Reading a word where a string is expected (or the
converse) is undefined behaviour in the source; the model consumes the
argument and emits nothing in that case. -/
inductive ExcArg where
  | word (w : Nat)
  | cstr (s : List Char)
deriving DecidableEq

/-- Fuel weight of one variadic argument (a consumed `%s` argument is
re-entered as a format string, so it contributes its length). -/
def ExcArg.size : ExcArg → Nat
  | .word _ => 1
  | .cstr s => s.length + 1

/-- Total fuel weight of an argument list. -/
def argsSize (l : List ExcArg) : Nat :=
  (l.map ExcArg.size).sum

/-- The modifier skipping of `exc_printf` (lines 95-103): after the percent
character the source skips one minus sign, then any run of decimal digits,
then one letter l. -/
def skipFmtMods (l : List Char) : List Char :=
  let l1 := match l with
    | '-' :: r => r
    | _ => l
  let l2 := l1.dropWhile (fun c => 48 ≤ c.toNat && c.toNat ≤ 57)
  match l2 with
  | 'l' :: r => r
  | _ => l2

/-- The `%d` conversion (lines 109-115): the word is read as a two's
complement int; a negative value prints a minus sign and is negated before
the unsigned decimal print (negation of INT_MIN wraps back to 2 ^ 31, which
is what the unsigned conversion of the source also yields). -/
def exc_printf_d (w : Nat) : List Char :=
  let w32 := w % 2 ^ 32
  if 2 ^ 31 ≤ w32 then '-' :: exc_puint (2 ^ 32 - w32) else exc_puint w32

/-- The format loop of `exc_printf` (lines 89-132).  The first argument is
fuel; every recursive call of the source strictly decreases
`format.length + argsSize args`, so the fuel passed by `exc_printf` below is
never exhausted.  End of the format list models the NUL terminator. -/
def exc_printf_aux : Nat → List Char → List ExcArg → List Char
  | 0, _, _ => []
  | _ + 1, [], _ => []
  | fuel + 1, c :: fmt, args =>
    if c = '%' then
      match fmt with
      | [] => []
      | d :: fmt1 =>
        if d = '%' then '%' :: exc_printf_aux fuel fmt1 args
        else
          match skipFmtMods (d :: fmt1) with
          | [] => []
          | conv :: fmt2 =>
            if conv = 's' then
              match args with
              | ExcArg.cstr s :: args2 =>
                exc_printf_aux fuel s [] ++ exc_printf_aux fuel fmt2 args2
              | _ :: args2 => exc_printf_aux fuel fmt2 args2
              | [] => exc_printf_aux fuel fmt2 []
            else if conv = 'd' then
              match args with
              | ExcArg.word w :: args2 => exc_printf_d w ++ exc_printf_aux fuel fmt2 args2
              | _ :: args2 => exc_printf_aux fuel fmt2 args2
              | [] => exc_printf_aux fuel fmt2 []
            else if conv = 'u' then
              match args with
              | ExcArg.word w :: args2 => exc_puint w ++ exc_printf_aux fuel fmt2 args2
              | _ :: args2 => exc_printf_aux fuel fmt2 args2
              | [] => exc_printf_aux fuel fmt2 []
            else if conv = 'x' ∨ conv = 'X' then
              match args with
              | ExcArg.word w :: args2 =>
                hexLoop 8 (w % 2 ^ 32) ++ exc_printf_aux fuel fmt2 args2
              | _ :: args2 => exc_printf_aux fuel fmt2 args2
              | [] => exc_printf_aux fuel fmt2 []
            else if conv = 'c' then
              match args with
              | ExcArg.word w :: args2 =>
                Char.ofNat (w % 256) :: exc_printf_aux fuel fmt2 args2
              | _ :: args2 => exc_printf_aux fuel fmt2 args2
              | [] => exc_printf_aux fuel fmt2 []
            else
              exc_printf_aux fuel fmt2 args
    else
      c :: exc_printf_aux fuel fmt args

/-- `exc_printf` (line 82): the emitted character stream of one call, the
print callback being the identity sink.  The fuel equals the termination
measure of the source loop, so the fuel-exhausted branch is unreachable. -/
def exc_printf (format : List Char) (args : List ExcArg) : List Char :=
  exc_printf_aux (format.length + argsSize args + 1) format args

/-! ### Heap grower: _sbrk_r (lines 58, 336-370) and the malloc hook -/

/-- The newlib out-of-memory errno value stored by `p_reent->_errno = ENOMEM`. -/
def ENOMEM : Nat := 12

/-- `reinterpret_cast<void*>(-1)`, the sbrk failure sentinel, on 32-bit. -/
def sbrkFailSentinel : Nat := 2 ^ 32 - 1

/-- The link-time constants of the heap grower and the compile-time switch
`configUSE_MALLOC_FAILED_HOOK == 1`. -/
structure SbrkConfig where
  ebss : Nat
  estack : Nat
  mallocFailedHookConfigured : Bool
deriving DecidableEq

/-- The boundary `&_estack - 8192` of the stack guard region (line 350),
computed in 32-bit pointer arithmetic. -/
def stackGuardLimit (cfg : SbrkConfig) : Nat :=
  (((cfg.estack : Int) - 8192) % (2 ^ 32 : Int)).toNat

/-- The initial value of `_g_current_heap_end` (line 58): `&_ebss + 32`. -/
def initialHeapEnd (cfg : SbrkConfig) : Nat :=
  cfg.ebss + 32

/-- How one `_sbrk_r` call hands control back: either the function returns a
pointer value to its caller, or (failure with the malloc hook configured) it
calls `vApplicationMallocFailedHook` (line 331), which is
`freertos::error_blink(2)` — an unconditional infinite loop (lines 248-256)
— so the call never returns. -/
inductive SbrkControl where
  | ret (p : Nat)
  | hookHalt (code : Nat)
deriving DecidableEq

/-- Observable outcome of one `_sbrk_r` call: control disposition, the value
of `_g_current_heap_end` afterwards, and the reentrancy-slot errno write. -/
structure SbrkResult where
  control : SbrkControl
  heapEnd : Nat
  errno : Option Nat
deriving DecidableEq

/-- The projected new boundary `_g_current_heap_end + incr` of line 350,
computed in 32-bit pointer arithmetic. -/
def sbrkProjected (heapEnd : Nat) (incr : Int) : Nat :=
  (((heapEnd : Int) + incr) % (2 ^ 32 : Int)).toNat

/-- `_sbrk_r` (lines 336-370).  The projected boundary
`_g_current_heap_end + incr` is computed in 32-bit pointer arithmetic and
rejected when it reaches the stack guard region or falls below `&_ebss`;
otherwise `_g_current_heap_end` advances and the pre-advance boundary is
returned. -/
def _sbrk_r (cfg : SbrkConfig) (heapEnd : Nat) (incr : Int) : SbrkResult :=
  let projected : Nat := sbrkProjected heapEnd incr
  if stackGuardLimit cfg ≤ projected ∨ projected < cfg.ebss then
    if cfg.mallocFailedHookConfigured then
      { control := SbrkControl.hookHalt 2, heapEnd := heapEnd, errno := none }
    else
      { control := SbrkControl.ret sbrkFailSentinel, heapEnd := heapEnd, errno := some ENOMEM }
  else
    { control := SbrkControl.ret heapEnd, heapEnd := projected, errno := none }

/-- A sequence of `_sbrk_r` calls, threading `_g_current_heap_end`; the list
collects the per-call outcomes. -/
def sbrkRun (cfg : SbrkConfig) : Nat → List Int → List SbrkResult
  | _, [] => []
  | h, i :: rest =>
    let r := _sbrk_r cfg h i
    r :: sbrkRun cfg r.heapEnd rest

/-- Number of bytes still grantable from heap end `h`: successful calls keep
the heap end strictly below `stackGuardLimit`, so the last grantable end is
`stackGuardLimit - 1`. -/
def availableRegionSize (cfg : SbrkConfig) (h : Nat) : Int :=
  (stackGuardLimit cfg : Int) - 1 - h

/-- Spec-side expected outcome sequence for an all-successful run (claim C4):
each call returns the pre-advance boundary (the initial boundary plus all
prior increments) and leaves the heap end at that boundary plus the current
increment. -/
def sbrkExpectedOuts (h0 : Nat) : List Int → List (Nat × Nat)
  | [] => []
  | i :: rest => (h0, h0 + i.toNat) :: sbrkExpectedOuts (h0 + i.toNat) rest

/-- The returned pointer of a call outcome (meaningful for `ret`). -/
def SbrkControl.retValue : SbrkControl → Nat
  | .ret p => p
  | .hookHalt _ => 0

/-! ### Wall clock: clock::sync_rtc (lines 272-286) and _gettimeofday -/

/-- A `struct timeval`: seconds and microseconds, signed. -/
structure Timeval where
  tv_sec : Int
  tv_usec : Int
deriving DecidableEq

/-- The BSD `timercmp(a, b, <)` macro. -/
def timercmp_lt (a b : Timeval) : Bool :=
  if a.tv_sec = b.tv_sec then decide (a.tv_usec < b.tv_usec)
  else decide (a.tv_sec < b.tv_sec)

/-- The BSD `timersub` macro: componentwise difference with microsecond
borrow. -/
def timersub (a b : Timeval) : Timeval :=
  let s := a.tv_sec - b.tv_sec
  let u := a.tv_usec - b.tv_usec
  if u < 0 then { tv_sec := s - 1, tv_usec := u + 1000000 } else { tv_sec := s, tv_usec := u }

/-- The BSD `timeradd` macro: componentwise sum with microsecond carry. -/
def timeradd (a b : Timeval) : Timeval :=
  let s := a.tv_sec + b.tv_sec
  let u := a.tv_usec + b.tv_usec
  if 1000000 ≤ u then { tv_sec := s + 1, tv_usec := u - 1000000 } else { tv_sec := s, tv_usec := u }

/-- The `timeval now` built from the microsecond counter (lines 276, 384). -/
def usToTimeval (now_us : Nat) : Timeval :=
  { tv_sec := (now_us / 1000000 : Nat), tv_usec := (now_us % 1000000 : Nat) }

/-- `clock::sync_rtc` (lines 272-286): reads the monotonic microsecond
counter `now_us` and the RTC seconds `rtc_sec`, and stores into `offset_`
the absolute difference of the two times (the smaller operand is always
subtracted from the larger). -/
def sync_rtc (now_us : Nat) (rtc_sec : Nat) : Timeval :=
  let now := usToTimeval now_us
  let rtc : Timeval := { tv_sec := (rtc_sec : Int), tv_usec := 0 }
  if timercmp_lt now rtc then timersub rtc now else timersub now rtc

/-- Modelled from the spec: `freertos::clock::get_offset` is declared in a
header that is not under src; per the spec it returns the stored offset
value written by `sync_rtc`, with no further computation. -/
def get_offset (offset : Timeval) : Timeval := offset

/-- `_gettimeofday` (lines 380-388): adds the stored offset to the current
monotonic time. -/
def _gettimeofday (offset : Timeval) (now_us : Nat) : Timeval :=
  timeradd (get_offset offset) (usToTimeval now_us)

/-! ### Frame walker: trace_fcn (lines 175-204) -/

/-- `x & ~1` on a 32-bit value: the thumb bit cleared. -/
def clearThumbBit (a : Nat) : Nat := 2 * (a / 2)

/-- The termination test of `trace_fcn` (line 185): instruction pointer equal
to `&prvTaskExitError` with the thumb bit cleared, or zero. -/
def isTraceEnd (taskExit ip : Nat) : Bool :=
  (ip == clearThumbBit taskExit) || (ip == 0)

/-- The state threaded through the walk: the `int depth` counter behind the
callback argument, and the global `g_trace_lr` (line 175). -/
structure TraceState where
  depth : Nat
  trace_lr : Nat
deriving DecidableEq

/-- The `_Unwind_Reason_Code` values returned by `trace_fcn`. -/
inductive UnwindCode where
  | no_reason
  | end_of_stack
deriving DecidableEq

/-- Outcome of one `trace_fcn` invocation: return code, updated state, and
the value written into register 14, if any.  Every invocation prints exactly
one frame line. -/
structure TraceStep where
  code : UnwindCode
  state : TraceState
  r14write : Option Nat
deriving DecidableEq

/-- `trace_fcn` (lines 178-204) on one frame with instruction pointer `ip`:
a terminating frame returns end-of-stack at once; otherwise the frame line
is printed, a pending nonzero `g_trace_lr` is written into register 14 and
cleared, the depth counter is incremented, and reaching depth 32 forces
end-of-stack. -/
def trace_fcn (taskExit : Nat) (ip : Nat) (st : TraceState) : TraceStep :=
  if isTraceEnd taskExit ip then
    { code := UnwindCode.end_of_stack, state := st, r14write := none }
  else
    let write : Option Nat := if st.trace_lr ≠ 0 then some st.trace_lr else none
    let lr : Nat := if st.trace_lr ≠ 0 then 0 else st.trace_lr
    let d := st.depth + 1
    if d = 32 then
      { code := UnwindCode.end_of_stack, state := { depth := d, trace_lr := lr }, r14write := write }
    else
      { code := UnwindCode.no_reason, state := { depth := d, trace_lr := lr }, r14write := write }

/-- Observable outcome of a whole walk: number of frame lines emitted, the
per-frame register-14 writes, whether the walk stopped by an end-of-stack
return of the callback (as opposed to exhausting the frame sequence), and
the final state. -/
structure WalkResult where
  lines : Nat
  writes : List (Option Nat)
  ended : Bool
  final : TraceState
deriving DecidableEq

/-- `_Unwind_Backtrace` driving `trace_fcn` over a frame sequence: frames are
fed to the callback until it returns something other than no-reason or the
sequence is exhausted. -/
def unwindWalk (taskExit : Nat) : List Nat → TraceState → WalkResult
  | [], st => { lines := 0, writes := [], ended := false, final := st }
  | ip :: rest, st =>
    let s := trace_fcn taskExit ip st
    match s.code with
    | UnwindCode.end_of_stack =>
      { lines := 1, writes := [s.r14write], ended := true, final := s.state }
    | UnwindCode.no_reason =>
      let r := unwindWalk taskExit rest s.state
      { lines := r.lines + 1, writes := s.r14write :: r.writes, ended := r.ended, final := r.final }

/-- The walk as started by `assert_blink` (line 227): depth 0, `g_trace_lr`
as found at entry. -/
def backtrace (taskExit : Nat) (ips : List Nat) (lr0 : Nat) : WalkResult :=
  unwindWalk taskExit ips { depth := 0, trace_lr := lr0 }

/-- Spec-side formula: one plus the index of the first terminating frame of
the sequence, or the sequence length when no frame terminates — the number
of frames an uncapped walk would process. -/
def walkStopBound (taskExit : Nat) : List Nat → Nat
  | [] => 0
  | ip :: rest => if isTraceEnd taskExit ip then 1 else walkStopBound taskExit rest + 1

/-- Spec-side formula: whether the walk returns end-of-stack — either a
terminating frame occurs among the first 32 frames, or at least 32 frames
are available so the depth cap fires. -/
def walkEndsExpected (taskExit : Nat) (ips : List Nat) : Bool :=
  (ips.any (fun ip => isTraceEnd taskExit ip) && decide (walkStopBound taskExit ips ≤ 32))
    || decide (32 ≤ ips.length)

/-! ### Scheduler bridge: yield and event_responder_set_pend_sv -/

/-- The scheduler states returned by `xTaskGetSchedulerState`. -/
inductive SchedulerState where
  | notStarted
  | suspended
  | running
deriving DecidableEq

/-- What one `yield()` call (lines 298-311) does.  Task handles are modelled
as addresses, the null handle being 0. -/
inductive YieldAction where
  | taskNotifyFromISR (handle : Nat)
  | taskNotify (handle : Nat)
  | busyYield
deriving DecidableEq

/-- `yield` (lines 298-311): with the scheduler started and a nonnull
`freertos::g_yield_task`, the task is notified (via the ISR variant with a
context-switch request and a data synchronization barrier when inside an
interrupt); otherwise the call falls through to `freertos::yield()`, the
pre-start busy yield. -/
def yield (sched : SchedulerState) (g_yield_task : Nat) (insideInterrupt : Bool) : YieldAction :=
  if sched ≠ SchedulerState.notStarted ∧ g_yield_task ≠ 0 then
    if insideInterrupt then YieldAction.taskNotifyFromISR g_yield_task
    else YieldAction.taskNotify g_yield_task
  else
    YieldAction.busyYield

/-- `event_responder_set_pend_sv` (lines 292-296): notifies
`freertos::g_event_responder_task` (payload 0, eNoAction) when the handle is
nonnull, and does nothing otherwise.  The result is the handle notified, if
any. -/
def event_responder_set_pend_sv (g_event_responder_task : Nat) : Option Nat :=
  if g_event_responder_task ≠ 0 then some g_event_responder_task else none

/-! ### Helper lemmas -/

lemma stackGuardLimit_lt (cfg : SbrkConfig) : stackGuardLimit cfg < 2 ^ 32 := by
  unfold stackGuardLimit
  have he : ((2 : Int) ^ 32) = 4294967296 := by norm_num
  rw [he]
  have h2 := Int.emod_lt_of_pos ((cfg.estack : Int) - 8192) (by norm_num : (0 : Int) < 4294967296)
  have h3 := Int.emod_nonneg ((cfg.estack : Int) - 8192) (by norm_num : (4294967296 : Int) ≠ 0)
  omega

lemma sbrkProjected_add (h : Nat) (i : Int) (hnn : 0 ≤ (h : Int) + i)
    (hlt : (h : Int) + i < 2 ^ 32) : sbrkProjected h i = ((h : Int) + i).toNat := by
  unfold sbrkProjected
  rw [Int.emod_eq_of_lt hnn hlt]

lemma sbrk_r_heapEnd_bound (cfg : SbrkConfig) (h : Nat) (i : Int)
    (hlo : cfg.ebss ≤ h) (hhi : h < stackGuardLimit cfg) :
    cfg.ebss ≤ (_sbrk_r cfg h i).heapEnd ∧ (_sbrk_r cfg h i).heapEnd < stackGuardLimit cfg := by
  unfold _sbrk_r
  by_cases hc : stackGuardLimit cfg ≤ sbrkProjected h i ∨ sbrkProjected h i < cfg.ebss
  · cases hb : cfg.mallocFailedHookConfigured <;> simp [hc, hb, hlo, hhi]
  · have hc2 := hc
    push_neg at hc2
    simp only [if_neg hc]
    exact ⟨hc2.2, hc2.1⟩

lemma sbrkRun_heapEnd_bounds (cfg : SbrkConfig) (incrs : List Int) :
    ∀ h0 : Nat, cfg.ebss ≤ h0 → h0 < stackGuardLimit cfg →
      ∀ r ∈ sbrkRun cfg h0 incrs, cfg.ebss ≤ r.heapEnd ∧ r.heapEnd < stackGuardLimit cfg := by
  induction incrs with
  | nil => intro h0 _ _ r hr; simp [sbrkRun] at hr
  | cons i rest ih =>
    intro h0 hlo hhi r hr
    simp only [sbrkRun, List.mem_cons] at hr
    have hb := sbrk_r_heapEnd_bound cfg h0 i hlo hhi
    rcases hr with rfl | hr
    · exact hb
    · exact ih _ hb.1 hb.2 r hr

lemma sbrk_r_failure (cfg : SbrkConfig) (h : Nat) (incr : Int)
    (hfail : stackGuardLimit cfg ≤ sbrkProjected h incr ∨ sbrkProjected h incr < cfg.ebss) :
    (_sbrk_r cfg h incr).heapEnd = h ∧
      (if cfg.mallocFailedHookConfigured then
        (_sbrk_r cfg h incr).control = SbrkControl.hookHalt 2 ∧ (_sbrk_r cfg h incr).errno = none
      else
        (_sbrk_r cfg h incr).control = SbrkControl.ret sbrkFailSentinel ∧
          (_sbrk_r cfg h incr).errno = some ENOMEM) := by
  unfold _sbrk_r
  cases hb : cfg.mallocFailedHookConfigured <;> simp [hfail, hb]

lemma sbrkRun_success (cfg : SbrkConfig) (incrs : List Int) :
    ∀ h0 : Nat, (∀ i ∈ incrs, 0 < i) → cfg.ebss ≤ h0 →
      (h0 : Int) + incrs.sum < (stackGuardLimit cfg : Int) →
      sbrkRun cfg h0 incrs
        = (sbrkExpectedOuts h0 incrs).map
            (fun p => { control := SbrkControl.ret p.1, heapEnd := p.2, errno := none }) := by
  induction incrs with
  | nil => intro h0 _ _ _; simp [sbrkRun, sbrkExpectedOuts]
  | cons i rest ih =>
    intro h0 hpos hlo hsum
    have hipos : 0 < i := hpos i (List.mem_cons_self i rest)
    have hrest : ∀ j ∈ rest, 0 < j := fun j hj => hpos j (List.mem_cons_of_mem i hj)
    have hsum_nn : 0 ≤ rest.sum := List.sum_nonneg fun j hj => le_of_lt (hrest j hj)
    have hlim := stackGuardLimit_lt cfg
    have hsum' : (h0 : Int) + i + rest.sum < (stackGuardLimit cfg : Int) := by
      simp only [List.sum_cons] at hsum; omega
    have hproj : sbrkProjected h0 i = h0 + i.toNat := by
      rw [sbrkProjected_add h0 i (by omega) (by push_cast; omega)]
      omega
    have hcond : ¬(stackGuardLimit cfg ≤ sbrkProjected h0 i ∨ sbrkProjected h0 i < cfg.ebss) := by
      rw [hproj]; push_neg; omega
    have hstep : _sbrk_r cfg h0 i
        = { control := SbrkControl.ret h0, heapEnd := h0 + i.toNat, errno := none } := by
      unfold _sbrk_r
      rw [if_neg hcond, hproj]
    simp only [sbrkRun, sbrkExpectedOuts, List.map_cons, hstep]
    congr 1
    exact ih (h0 + i.toNat) hrest (by omega) (by push_cast; omega)

lemma sbrkExpectedOuts_fst_ge (incrs : List Int) :
    ∀ h0 y, y ∈ (sbrkExpectedOuts h0 incrs).map Prod.fst → h0 ≤ y := by
  induction incrs with
  | nil => intro h0 y hy; simp [sbrkExpectedOuts] at hy
  | cons i rest ih =>
    intro h0 y hy
    simp only [sbrkExpectedOuts, List.map_cons, List.mem_cons] at hy
    rcases hy with rfl | hy
    · exact le_refl _
    · exact le_trans (Nat.le_add_right h0 i.toNat) (ih (h0 + i.toNat) y hy)

lemma sbrkExpectedOuts_fst_pairwise (incrs : List Int) :
    ∀ h0, (∀ i ∈ incrs, 0 < i) →
      ((sbrkExpectedOuts h0 incrs).map Prod.fst).Pairwise (· < ·) := by
  induction incrs with
  | nil => intro h0 _; simp [sbrkExpectedOuts]
  | cons i rest ih =>
    intro h0 hpos
    have hipos : 0 < i := hpos i (List.mem_cons_self i rest)
    have hrest : ∀ j ∈ rest, 0 < j := fun j hj => hpos j (List.mem_cons_of_mem i hj)
    simp only [sbrkExpectedOuts, List.map_cons]
    refine List.Pairwise.cons (fun y hy => ?_) (ih (h0 + i.toNat) hrest)
    have h1 : h0 + i.toNat ≤ y := sbrkExpectedOuts_fst_ge rest (h0 + i.toNat) y hy
    omega

lemma hexLoop_length (n : Nat) : ∀ v, (hexLoop n v).length = n := by
  induction n with
  | zero => intro v; simp [hexLoop]
  | succ n ih => intro v; simp [hexLoop, ih]

lemma hexDigitChar_spec (d : Nat) (hd : d < 16) :
    (48 ≤ (hexDigitChar d).toNat ∧ (hexDigitChar d).toNat ≤ 57) ∨
      (65 ≤ (hexDigitChar d).toNat ∧ (hexDigitChar d).toNat ≤ 70) := by
  interval_cases d <;> decide

lemma hexLoop_chars (n : Nat) : ∀ v c, c ∈ hexLoop n v →
    (48 ≤ c.toNat ∧ c.toNat ≤ 57) ∨ (65 ≤ c.toNat ∧ c.toNat ≤ 70) := by
  induction n with
  | zero => intro v c hc; simp [hexLoop] at hc
  | succ n ih =>
    intro v c hc
    simp only [hexLoop, List.mem_cons] at hc
    rcases hc with rfl | hc
    · exact hexDigitChar_spec _ (Nat.mod_lt _ (by norm_num))
    · exact ih _ c hc

lemma exc_printf_x_eq (w : Nat) :
    exc_printf ['%', 'x'] [ExcArg.word w] = hexLoop 8 (w % 2 ^ 32) := by
  have h : exc_printf ['%', 'x'] [ExcArg.word w] = hexLoop 8 (w % 2 ^ 32) ++ [] := rfl
  rw [h, List.append_nil]

lemma exc_printf_X_eq (w : Nat) :
    exc_printf ['%', 'X'] [ExcArg.word w] = hexLoop 8 (w % 2 ^ 32) := by
  have h : exc_printf ['%', 'X'] [ExcArg.word w] = hexLoop 8 (w % 2 ^ 32) ++ [] := rfl
  rw [h, List.append_nil]

lemma digitChar_toNat (m : Nat) (hm : m < 10) : (Char.ofNat (m + 48)).toNat = m + 48 := by
  interval_cases m <;> decide

lemma puintAux_digits (i : Nat) : ∀ num acc, (∀ c ∈ acc, 48 ≤ c.toNat ∧ c.toNat ≤ 57) →
    ∀ c ∈ puintAux i num acc, 48 ≤ c.toNat ∧ c.toNat ≤ 57 := by
  induction i with
  | zero => intro num acc hacc c hc; simp only [puintAux] at hc; exact hacc c hc
  | succ i ih =>
    intro num acc hacc c hc
    simp only [puintAux] at hc
    have hdig : ∀ c ∈ (Char.ofNat (num % 10 + 48) :: acc), 48 ≤ c.toNat ∧ c.toNat ≤ 57 := by
      intro c hc2
      rcases List.mem_cons.mp hc2 with rfl | hc2
      · have h1 := digitChar_toNat (num % 10) (Nat.mod_lt _ (by norm_num))
        have h2 : num % 10 < 10 := Nat.mod_lt _ (by norm_num)
        omega
      · exact hacc c hc2
    by_cases h0 : num / 10 = 0
    · rw [if_pos h0] at hc
      exact hdig c hc
    · rw [if_neg h0] at hc
      exact ih (num / 10) _ hdig c hc

lemma exc_puint_digits (num : Nat) : ∀ c ∈ exc_puint num, 48 ≤ c.toNat ∧ c.toNat ≤ 57 :=
  puintAux_digits 11 _ [] (by simp)

lemma exc_printf_no_percent : ∀ l : List Char, (∀ c ∈ l, c ≠ '%') → ∀ fuel, l.length ≤ fuel →
    exc_printf_aux fuel l [] = l := by
  intro l
  induction l with
  | nil => intro _ fuel _; cases fuel <;> rfl
  | cons c l2 ih =>
    intro hnp fuel hlen
    cases fuel with
    | zero => simp at hlen
    | succ f =>
      have hc : c ≠ '%' := hnp c (List.mem_cons_self _ _)
      simp only [exc_printf_aux, if_neg hc]
      rw [ih (fun d hd => hnp d (List.mem_cons_of_mem c hd)) f (by simp at hlen; omega)]

lemma unwindWalk_lines_ended (taskExit : Nat) (ips : List Nat) :
    ∀ d lr, d < 32 →
      (unwindWalk taskExit ips { depth := d, trace_lr := lr }).lines
          = min (32 - d) (walkStopBound taskExit ips) ∧
      ((unwindWalk taskExit ips { depth := d, trace_lr := lr }).ended = true ↔
        ((ips.any fun ip => isTraceEnd taskExit ip) = true
            ∧ walkStopBound taskExit ips ≤ 32 - d)
          ∨ 32 - d ≤ ips.length) := by
  induction ips with
  | nil =>
    intro d lr hd
    constructor
    · simp [unwindWalk, walkStopBound]
    · simp [unwindWalk, walkStopBound]
      omega
  | cons ip rest ih =>
    intro d lr hd
    by_cases hend : isTraceEnd taskExit ip = true
    · constructor
      · simp [unwindWalk, trace_fcn, hend, walkStopBound]
        omega
      · simp [unwindWalk, trace_fcn, hend, walkStopBound]
        omega
    · have hend' : isTraceEnd taskExit ip = false := by simpa using hend
      by_cases hd31 : d + 1 = 32
      · constructor
        · simp [unwindWalk, trace_fcn, hend', hd31, walkStopBound]
          omega
        · simp [unwindWalk, trace_fcn, hend', hd31, walkStopBound]
          omega
      · have hrec := fun lr' => ih (d + 1) lr' (by omega)
        constructor
        · simp only [unwindWalk, trace_fcn, hend', Bool.false_eq_true, if_false, hd31,
            if_neg hd31, walkStopBound]
          rw [(hrec _).1]
          omega
        · simp only [unwindWalk, trace_fcn, hend', Bool.false_eq_true, if_false, hd31,
            if_neg hd31, walkStopBound, List.any_cons, List.length_cons]
          rw [(hrec _).2]
          simp only [Bool.false_or]
          constructor
          · rintro (⟨hA, h⟩ | h)
            · exact Or.inl ⟨hA, by omega⟩
            · exact Or.inr (by omega)
          · rintro (⟨hA, h⟩ | h)
            · exact Or.inl ⟨hA, by omega⟩
            · exact Or.inr (by omega)

lemma unwindWalk_lr_zero (taskExit : Nat) (ips : List Nat) :
    ∀ d, (unwindWalk taskExit ips { depth := d, trace_lr := 0 }).writes
        = List.replicate (unwindWalk taskExit ips { depth := d, trace_lr := 0 }).lines none ∧
      (unwindWalk taskExit ips { depth := d, trace_lr := 0 }).final.trace_lr = 0 := by
  induction ips with
  | nil => intro d; simp [unwindWalk]
  | cons ip rest ih =>
    intro d
    by_cases hend : isTraceEnd taskExit ip = true
    · simp [unwindWalk, trace_fcn, hend, List.replicate]
    · have hend' : isTraceEnd taskExit ip = false := by simpa using hend
      by_cases hd31 : d + 1 = 32
      · simp [unwindWalk, trace_fcn, hend', hd31, List.replicate]
      · have hr := ih (d + 1)
        simp only [unwindWalk, trace_fcn, hend', Bool.false_eq_true, if_false, hd31,
          if_neg hd31, ne_eq, not_true_eq_false, if_neg (by simp : ¬((0 : Nat) ≠ 0))]
        refine ⟨?_, hr.2⟩
        rw [List.replicate_succ]
        exact congrArg (List.cons none) hr.1

/-- The digit buffer handed by `exc_puint` to `exc_printf` (line 79)
contains only decimal digits, never a percent character, so that recursive
`exc_printf` call emits it verbatim: modelling the output of `exc_puint` as
the digit list itself is faithful. -/
lemma exc_printf_of_exc_puint (num : Nat) : exc_printf (exc_puint num) [] = exc_puint num := by
  unfold exc_printf
  apply exc_printf_no_percent
  · intro c hc
    have hd := exc_puint_digits num c hc
    intro heq
    rw [heq] at hd
    have h37 : ('%' : Char).toNat = 37 := rfl
    omega
  · simp [argsSize]

/-! ### Claim theorems -/

/-- Claim C1 (code bug, evaluation): after `sync_rtc` with the monotonic
clock at 100 s and the RTC at 60 s (the now greater than rtc branch),
`_gettimeofday` immediately afterwards yields 140 s — not the RTC time 60 s
the claim requires — because `sync_rtc` stores the unsigned magnitude of the
difference in both branches while `_gettimeofday` always adds it.  In the
now less than rtc branch (monotonic 60 s, RTC 100 s) the result 100 s is
correct. -/
theorem gettimeofday_sync_eval :
    _gettimeofday (sync_rtc 100000000 60) 100000000 = { tv_sec := 140, tv_usec := 0 } ∧
    _gettimeofday (sync_rtc 100000000 60) 100000000 ≠ { tv_sec := 60, tv_usec := 0 } ∧
    _gettimeofday (sync_rtc 60000000 100) 60000000 = { tv_sec := 100, tv_usec := 0 } := by
  decide

/-- Claim C2 (counterexample): from the initial boundary `_ebss + 32` a
growth call with increment −32 is accepted (it returns the previous
boundary, not a failure), and afterwards `_g_current_heap_end` lies strictly
below `_ebss + 32` — the code checks the lower bound against `_ebss`, not
against the initial boundary claimed as `heap_region_start`. -/
theorem sbrk_heap_start_counterexample :
    (_sbrk_r ⟨1000, 100000, false⟩ 1032 (-32)).control = SbrkControl.ret 1032 ∧
    (_sbrk_r ⟨1000, 100000, false⟩ 1032 (-32)).heapEnd < initialHeapEnd ⟨1000, 100000, false⟩ := by
  decide

/-- Claim C2 (amended): with `heap_region_start` read as `_ebss` (the bound
the code actually checks), the invariant
`_ebss ≤ current_heap_end < _estack − 8192` holds after every call of any
call sequence, and any request whose projected boundary violates it is
rejected — sentinel return or malloc-failed-hook halt — leaving
`_g_current_heap_end` unchanged. -/
theorem sbrk_invariant_preserved (cfg : SbrkConfig) (h0 : Nat) (incrs : List Int)
    (hlo : cfg.ebss ≤ h0) (hhi : h0 < stackGuardLimit cfg) :
    (∀ r ∈ sbrkRun cfg h0 incrs, cfg.ebss ≤ r.heapEnd ∧ r.heapEnd < stackGuardLimit cfg) ∧
    (∀ (h : Nat) (incr : Int),
      stackGuardLimit cfg ≤ sbrkProjected h incr ∨ sbrkProjected h incr < cfg.ebss →
      (_sbrk_r cfg h incr).heapEnd = h ∧
        ((_sbrk_r cfg h incr).control = SbrkControl.ret sbrkFailSentinel ∨
          (_sbrk_r cfg h incr).control = SbrkControl.hookHalt 2)) := by
  refine ⟨sbrkRun_heapEnd_bounds cfg incrs h0 hlo hhi, fun h incr hfail => ?_⟩
  have hf := sbrk_r_failure cfg h incr hfail
  refine ⟨hf.1, ?_⟩
  rcases hb : cfg.mallocFailedHookConfigured with _ | _ <;> rw [hb] at hf <;> simp at hf
  · exact Or.inl hf.2.1
  · exact Or.inr hf.2.1

/-- Witness for C2 at a concrete configuration and call sequence. -/
theorem sbrk_invariant_preserved_witness :
    (∀ r ∈ sbrkRun ⟨1000, 100000, false⟩ 1032 [8, -4],
      (1000 : Nat) ≤ r.heapEnd ∧ r.heapEnd < stackGuardLimit ⟨1000, 100000, false⟩) ∧
    (∀ (h : Nat) (incr : Int),
      stackGuardLimit ⟨1000, 100000, false⟩ ≤ sbrkProjected h incr ∨ sbrkProjected h incr < 1000 →
      (_sbrk_r ⟨1000, 100000, false⟩ h incr).heapEnd = h ∧
        ((_sbrk_r ⟨1000, 100000, false⟩ h incr).control = SbrkControl.ret sbrkFailSentinel ∨
          (_sbrk_r ⟨1000, 100000, false⟩ h incr).control = SbrkControl.hookHalt 2)) :=
  sbrk_invariant_preserved ⟨1000, 100000, false⟩ 1032 [8, -4] (by decide) (by decide)

/-- Claim C3 (counterexample): a failing request under a configured
malloc-failed hook never returns the sentinel — the hook is entered and
halts (`error_blink(2)`), so the control outcome differs from a sentinel
return even though the request is a failing one. -/
theorem sbrk_failure_sentinel_counterexample :
    (stackGuardLimit ⟨1000, 100000, true⟩ ≤ sbrkProjected 1032 300000 ∨
      sbrkProjected 1032 300000 < (1000 : Nat)) ∧
    (_sbrk_r ⟨1000, 100000, true⟩ 1032 300000).control ≠ SbrkControl.ret sbrkFailSentinel := by
  decide

/-- Claim C3 (amended): a failing growth request leaves
`_g_current_heap_end` unchanged; with the malloc-failed hook configured the
hook is invoked (entering `error_blink(2)`, which never returns, so no
sentinel is returned and errno is untouched); without the hook the
reentrancy-slot errno is set to ENOMEM and the sentinel `(void*)-1` is
returned. -/
theorem sbrk_failure_behavior (cfg : SbrkConfig) (h : Nat) (incr : Int)
    (hfail : stackGuardLimit cfg ≤ sbrkProjected h incr ∨ sbrkProjected h incr < cfg.ebss) :
    (_sbrk_r cfg h incr).heapEnd = h ∧
    (cfg.mallocFailedHookConfigured = true →
      (_sbrk_r cfg h incr).control = SbrkControl.hookHalt 2 ∧ (_sbrk_r cfg h incr).errno = none) ∧
    (cfg.mallocFailedHookConfigured = false →
      (_sbrk_r cfg h incr).control = SbrkControl.ret sbrkFailSentinel ∧
        (_sbrk_r cfg h incr).errno = some ENOMEM) := by
  have hf := sbrk_r_failure cfg h incr hfail
  refine ⟨hf.1, fun hb => ?_, fun hb => ?_⟩ <;> rw [hb] at hf <;> simpa using hf.2

/-- Witness for C3 at a concrete failing call in both configurations. -/
theorem sbrk_failure_behavior_witness :
    ((_sbrk_r ⟨1000, 100000, true⟩ 1032 99000).heapEnd = 1032 ∧
      ((true : Bool) = true →
        (_sbrk_r ⟨1000, 100000, true⟩ 1032 99000).control = SbrkControl.hookHalt 2 ∧
          (_sbrk_r ⟨1000, 100000, true⟩ 1032 99000).errno = none) ∧
      ((true : Bool) = false →
        (_sbrk_r ⟨1000, 100000, true⟩ 1032 99000).control = SbrkControl.ret sbrkFailSentinel ∧
          (_sbrk_r ⟨1000, 100000, true⟩ 1032 99000).errno = some ENOMEM)) ∧
    ((_sbrk_r ⟨1000, 100000, false⟩ 1032 99000).heapEnd = 1032 ∧
      ((false : Bool) = true →
        (_sbrk_r ⟨1000, 100000, false⟩ 1032 99000).control = SbrkControl.hookHalt 2 ∧
          (_sbrk_r ⟨1000, 100000, false⟩ 1032 99000).errno = none) ∧
      ((false : Bool) = false →
        (_sbrk_r ⟨1000, 100000, false⟩ 1032 99000).control = SbrkControl.ret sbrkFailSentinel ∧
          (_sbrk_r ⟨1000, 100000, false⟩ 1032 99000).errno = some ENOMEM)) :=
  ⟨sbrk_failure_behavior ⟨1000, 100000, true⟩ 1032 99000 (by decide),
   sbrk_failure_behavior ⟨1000, 100000, false⟩ 1032 99000 (by decide)⟩

/-- Claim C5 (counterexample): with the malloc-failed hook configured, a
failing growth call does not hand control back to the requesting caller —
the outcome is the hook halt, which is not a return of the sentinel. -/
theorem sbrk_failure_not_returning_counterexample :
    (stackGuardLimit ⟨1000, 100000, true⟩ ≤ sbrkProjected 1032 200000 ∨
      sbrkProjected 1032 200000 < (1000 : Nat)) ∧
    (_sbrk_r ⟨1000, 100000, true⟩ 1032 200000).control = SbrkControl.hookHalt 2 ∧
    SbrkControl.hookHalt 2 ≠ SbrkControl.ret sbrkFailSentinel := by
  decide

/-- Claim C5 (amended): a heap-growth failure is non-fatal and surfaces to
the requesting caller as the sentinel only when the malloc-failed hook is
not configured; when the hook is configured, the failing call enters
`vApplicationMallocFailedHook` = `error_blink(2)`, an infinite blink loop,
and never returns. -/
theorem sbrk_failure_control (cfg : SbrkConfig) (h : Nat) (incr : Int)
    (hfail : stackGuardLimit cfg ≤ sbrkProjected h incr ∨ sbrkProjected h incr < cfg.ebss) :
    (cfg.mallocFailedHookConfigured = false →
      (_sbrk_r cfg h incr).control = SbrkControl.ret sbrkFailSentinel) ∧
    (cfg.mallocFailedHookConfigured = true →
      (_sbrk_r cfg h incr).control = SbrkControl.hookHalt 2) := by
  have hf := sbrk_r_failure cfg h incr hfail
  refine ⟨fun hb => ?_, fun hb => ?_⟩ <;> rw [hb] at hf <;> simpa using hf.2.1

/-- Witness for C5 at a concrete failing call in both configurations. -/
theorem sbrk_failure_control_witness :
    (((false : Bool) = false →
      (_sbrk_r ⟨1000, 100000, false⟩ 1032 150000).control = SbrkControl.ret sbrkFailSentinel) ∧
      ((false : Bool) = true →
        (_sbrk_r ⟨1000, 100000, false⟩ 1032 150000).control = SbrkControl.hookHalt 2)) ∧
    (((true : Bool) = false →
      (_sbrk_r ⟨1000, 100000, true⟩ 1032 150000).control = SbrkControl.ret sbrkFailSentinel) ∧
      ((true : Bool) = true →
        (_sbrk_r ⟨1000, 100000, true⟩ 1032 150000).control = SbrkControl.hookHalt 2)) :=
  ⟨sbrk_failure_control ⟨1000, 100000, false⟩ 1032 150000 (by decide),
   sbrk_failure_control ⟨1000, 100000, true⟩ 1032 150000 (by decide)⟩

/-- Claim C9: with a null yield-target handle — or with the scheduler not
yet started — `yield` sends no notification and falls through to the
busy-yield primitive `freertos::yield()`, and `event_responder_set_pend_sv`
with a null event-responder handle sends no notification. -/
theorem bridge_null_handles :
    (∀ (sched : SchedulerState) (inside : Bool), yield sched 0 inside = YieldAction.busyYield) ∧
    (∀ (t : Nat) (inside : Bool),
      yield SchedulerState.notStarted t inside = YieldAction.busyYield) ∧
    event_responder_set_pend_sv 0 = none := by
  refine ⟨fun sched inside => ?_, fun t inside => ?_, ?_⟩
  · simp [yield]
  · simp [yield]
  · simp [event_responder_set_pend_sv]

/-- Claim C4: a sequence of positive heap-growth calls whose increments sum
to at most the available region size all succeed; each call returns the
pre-advance boundary — the initial boundary plus all prior increments —
with no errno write, leaves `_g_current_heap_end` at the returned pointer
plus the current increment, and the returned pointers are strictly
increasing. -/
theorem sbrk_success_sequence (cfg : SbrkConfig) (h0 : Nat) (incrs : List Int)
    (hpos : ∀ i ∈ incrs, 0 < i) (hlo : cfg.ebss ≤ h0)
    (hsum : incrs.sum ≤ availableRegionSize cfg h0) :
    sbrkRun cfg h0 incrs
        = (sbrkExpectedOuts h0 incrs).map
            (fun p => { control := SbrkControl.ret p.1, heapEnd := p.2, errno := none }) ∧
    ((sbrkRun cfg h0 incrs).map fun r => r.control.retValue).Pairwise (· < ·) := by
  have hsum' : (h0 : Int) + incrs.sum < (stackGuardLimit cfg : Int) := by
    unfold availableRegionSize at hsum
    omega
  have heq := sbrkRun_success cfg incrs h0 hpos hlo hsum'
  refine ⟨heq, ?_⟩
  rw [heq, List.map_map]
  have hcomp : ((fun r : SbrkResult => r.control.retValue) ∘
      (fun p : Nat × Nat =>
        ({ control := SbrkControl.ret p.1, heapEnd := p.2, errno := none } : SbrkResult)))
      = Prod.fst := by
    funext p
    simp [SbrkControl.retValue]
  rw [hcomp]
  exact sbrkExpectedOuts_fst_pairwise incrs h0 hpos

/-- Witness for C4 at a concrete configuration and call sequence. -/
theorem sbrk_success_sequence_witness :
    sbrkRun ⟨1000, 100000, false⟩ 1032 [8, 16]
        = (sbrkExpectedOuts 1032 [8, 16]).map
            (fun p => { control := SbrkControl.ret p.1, heapEnd := p.2, errno := none }) ∧
    ((sbrkRun ⟨1000, 100000, false⟩ 1032 [8, 16]).map fun r => r.control.retValue).Pairwise
      (· < ·) :=
  sbrk_success_sequence ⟨1000, 100000, false⟩ 1032 [8, 16] (by decide) (by decide) (by decide)

/-- Claim C6: the diagnostic formatter emits exactly the specified output
for each supported conversion — signed decimal with leading minus, unsigned
decimal, 8-digit fixed-width hex, C-string, character, literal percent —
and skips width, precision and length modifiers without stray output. -/
theorem exc_printf_outputs :
    exc_printf ['%', 'd'] [ExcArg.word (2 ^ 32 - 42)] = ['-', '4', '2'] ∧
    exc_printf ['%', 'u'] [ExcArg.word 4294967295]
      = ['4', '2', '9', '4', '9', '6', '7', '2', '9', '5'] ∧
    exc_printf ['%', 'x'] [ExcArg.word 1] = ['0', '0', '0', '0', '0', '0', '0', '1'] ∧
    exc_printf ['%', 's'] [ExcArg.cstr ['o', 'k']] = ['o', 'k'] ∧
    exc_printf ['%', 'c'] [ExcArg.word 111] = ['o'] ∧
    exc_printf ['%', '%'] [] = ['%'] ∧
    exc_printf ['%', '5', 'l', 'd'] [ExcArg.word 42] = ['4', '2'] := by
  decide

/-- Claim C10: for every word argument the lowercase and uppercase hex
conversions emit the same output — exactly 8 characters, each a decimal
digit or an uppercase letter between A and F, never a lowercase hex
letter. -/
theorem exc_printf_hex_uppercase (w : Nat) :
    exc_printf ['%', 'x'] [ExcArg.word w] = exc_printf ['%', 'X'] [ExcArg.word w] ∧
    (exc_printf ['%', 'x'] [ExcArg.word w]).length = 8 ∧
    ∀ c ∈ exc_printf ['%', 'x'] [ExcArg.word w],
      (48 ≤ c.toNat ∧ c.toNat ≤ 57) ∨ (65 ≤ c.toNat ∧ c.toNat ≤ 70) := by
  refine ⟨?_, ?_, ?_⟩
  · rw [exc_printf_x_eq, exc_printf_X_eq]
  · rw [exc_printf_x_eq]
    exact hexLoop_length 8 _
  · rw [exc_printf_x_eq]
    intro c hc
    exact hexLoop_chars 8 _ c hc

/-- Claim C7: for every unwind sequence and every pending link-register
override, the walk emits at most 32 frame lines; the number of frames
processed is the position of the first terminating frame — instruction
pointer equal to the thumb-cleared task-entry trampoline or zero — capped
at 32; and the walk returns end-of-stack exactly when such a frame occurs
among the first 32 or the sequence supplies at least 32 frames (forced
termination), even for an unterminated sequence. -/
theorem trace_walk_spec (taskExit : Nat) (ips : List Nat) (lr0 : Nat) :
    (backtrace taskExit ips lr0).lines ≤ 32 ∧
    (backtrace taskExit ips lr0).lines = min 32 (walkStopBound taskExit ips) ∧
    (backtrace taskExit ips lr0).ended = walkEndsExpected taskExit ips := by
  have h := unwindWalk_lines_ended taskExit ips 0 lr0 (by norm_num)
  simp only [Nat.sub_zero] at h
  have hb : backtrace taskExit ips lr0 = unwindWalk taskExit ips { depth := 0, trace_lr := lr0 } :=
    rfl
  refine ⟨?_, ?_, ?_⟩
  · rw [hb, h.1]
    omega
  · rw [hb, h.1]
  · have hw : walkEndsExpected taskExit ips = true ↔
        ((ips.any fun ip => isTraceEnd taskExit ip) = true ∧ walkStopBound taskExit ips ≤ 32)
          ∨ 32 ≤ ips.length := by
      simp [walkEndsExpected, Bool.or_eq_true, Bool.and_eq_true, decide_eq_true_eq]
    rw [hb]
    have hiff := h.2
    cases he : (unwindWalk taskExit ips { depth := 0, trace_lr := lr0 }).ended <;>
      cases hx : walkEndsExpected taskExit ips <;> simp_all

/-- Claim C8: the link-register override is one-shot — when `g_trace_lr` is
nonzero at walk start and the first frame does not terminate the walk, that
first frame alone receives the register-14 write (with the pending value)
and `g_trace_lr` is cleared, every later processed frame being left
untouched; when `g_trace_lr` is zero at walk start, no processed frame is
modified at all. -/
theorem trace_lr_one_shot :
    (∀ (taskExit ip : Nat) (rest : List Nat) (lr0 : Nat), lr0 ≠ 0 →
      isTraceEnd taskExit ip = false →
      (backtrace taskExit (ip :: rest) lr0).writes
          = some lr0 :: List.replicate ((backtrace taskExit (ip :: rest) lr0).lines - 1) none ∧
        (backtrace taskExit (ip :: rest) lr0).final.trace_lr = 0) ∧
    (∀ (taskExit : Nat) (ips : List Nat),
      (backtrace taskExit ips 0).writes
        = List.replicate (backtrace taskExit ips 0).lines none) := by
  constructor
  · intro taskExit ip rest lr0 hlr hend
    unfold backtrace
    have hz := unwindWalk_lr_zero taskExit rest 1
    simp only [unwindWalk, trace_fcn, hend, Bool.false_eq_true, if_false, ne_eq, hlr,
      not_false_eq_true, if_true, Nat.zero_add, if_neg (by norm_num : ¬(0 + 1 = 32))]
    refine ⟨?_, hz.2⟩
    rw [Nat.add_sub_cancel, hz.1]
  · intro taskExit ips
    exact (unwindWalk_lr_zero taskExit ips 0).1

/-- Witness for C8 at a concrete walk: first frame non-terminating, pending
override 77, terminator at the third frame. -/
theorem trace_lr_one_shot_witness :
    (backtrace 1000 [4, 8, 0] 77).writes
        = some 77 :: List.replicate ((backtrace 1000 [4, 8, 0] 77).lines - 1) none ∧
      (backtrace 1000 [4, 8, 0] 77).final.trace_lr = 0 :=
  trace_lr_one_shot.1 1000 4 [8, 0] 77 (by decide) (by decide)

end TeensyPort
